import Mathlib

/-!
Verification development for the log-interpretation engine in
`src/anchorpy/program/event.py`.

The Python module reconstructs a call stack from an ordered list of log
lines and extracts events authored by one target program.  We embed the
module shallowly: Python `str` values become `List Char` (Python strings
are sequences of code points, and all operations used by the module —
`split`, `startswith`, slicing, `in` — are code-point based), Python
exceptions become an explicit error type, and the two external
capabilities (`base64.b64decode` from the standard library and
`coder.events.parse`, the decode capability declared external by the
design) become function-valued fields of `EventParser`.

Python string primitives used by the source are reimplemented here over
`List Char` with structural recursion so that concrete runs evaluate
inside the kernel:
  * `pySplit sep s`   models `s.split(sep)` for a non-empty `sep`
    (splits on every non-overlapping occurrence, left to right, keeping
    empty segments);
  * `stripPre? p s`   returns the remainder of `s` after the leading
    occurrence of `p`, when `p` leads `s`;
  * `pyStartsWith p s` models `s.startswith(p)`;
  * `pyContains sub s` models `sub in s`;
  * `List.drop n s`    models `s[n:]`.
-/

/-- Python strings, as lists of code points. -/
abbrev Str := List Char

/-- Code points of a Lean string literal. -/
def str (s : String) : Str := s.data

/-- If `p` leads `s`, the remainder of `s` after `p`; otherwise `none`. -/
def stripPre? : Str → Str → Option Str
  | [], s => some s
  | _ :: _, [] => none
  | c :: cs, d :: ds => if c = d then stripPre? cs ds else none

/-- Models Python `s.startswith(p)`. -/
def pyStartsWith (p s : Str) : Bool := (stripPre? p s).isSome

/-- Models Python `sub in s` (substring occurrence). -/
def pyContains (sub : Str) : Str → Bool
  | [] => (stripPre? sub []).isSome
  | c :: rest =>
    match stripPre? sub (c :: rest) with
    | some _ => true
    | none => pyContains sub rest

/-- Fuel-driven worker for `pySplit`.  The fuel starts at the length of
the string being split and strictly bounds the recursion; for a
non-empty separator the fuel never runs out, so the `0` case is inert
filler. -/
def pySplitFuel (sep : Str) : Nat → Str → Str → List Str
  | _, [], acc => [acc.reverse]
  | 0, s, acc => [acc.reverse ++ s]
  | fuel + 1, c :: rest, acc =>
    match stripPre? sep (c :: rest) with
    | some rem => acc.reverse :: pySplitFuel sep fuel rem []
    | none => pySplitFuel sep fuel rest (c :: acc)

/-- Models Python `s.split(sep)` for non-empty `sep`: splits on every
non-overlapping occurrence of `sep`, left to right, keeping empty
segments.  (Python raises on an empty separator; the module never passes
one.) -/
def pySplit (sep s : Str) : List Str :=
  pySplitFuel sep s.length s []

/-- Python exceptions that the module can raise.

  * `malformedLog`   — the `ValueError("Could not find program invocation
    log line")` raised by `ExecutionContext.__init__`;
  * `indexError`     — the `IndexError` raised by the unguarded indexing
    `log_start.split("Program ")[1].split(" ")[1]` in
    `handle_system_log`;
  * `emptyStack`     — the `IndexError` raised by `list.pop()` on an
    empty stack in `parse_logs`;
  * `attributeError` — the `AttributeError` raised when `parse_logs` is
    given an empty list: `LogScanner.to_next()` returns `None` and
    `ExecutionContext.__init__` calls `.split` on it. -/
inductive ParseErr where
  | malformedLog
  | indexError
  | emptyStack
  | attributeError
deriving DecidableEq

/-- `LOG_START_INDEX = len("Program log: ")`. -/
def LOG_START_INDEX : Nat := (str "Program log: ").length

/-- The `EventParser` dataclass.  `program_id` is `str(self.program_id)`
(the module only ever compares its string form).  `b64decode` models the
standard-library `base64.b64decode`, with `none` standing for a raised
`binascii.Error`; `eventsParse` models `self.coder.events.parse`, the
external decode capability, with `none` standing for "no event". -/
structure EventParser (Event : Type) where
  program_id : Str
  b64decode : Str → Option (List Nat)
  eventsParse : List Nat → Option Event

/-- `ExecutionContext.__init__`: seed the stack from the first line via
`log.split("Program ")[1].split(" invoke [")[0]`; a failing index raises
the `ValueError` modelled by `malformedLog`.  The result is the `stack`
attribute (a one-element list). -/
def ExecutionContext.init (log : Str) : Except ParseErr (List Str) :=
  match (pySplit (str "Program ") log)[1]? with
  | none => .error .malformedLog
  | some afterProg => .ok [(pySplit (str " invoke [") afterProg).headD []]

/-- `EventParser.handle_system_log`.  `log_start = log.split(":")[0]`;
then `log_start.split("Program ")[1].split(" ")[1]` is compared with
`"success"` (either index may raise `IndexError`), and otherwise the
`invoke` patterns are tried. -/
def handle_system_log {Event : Type} (p : EventParser Event) (log : Str) :
    Except ParseErr (Option Str × Bool) :=
  let log_start := (pySplit (str ":") log).headD []
  match (pySplit (str "Program ") log_start)[1]? with
  | none => .error .indexError
  | some afterProg =>
    match (pySplit (str " ") afterProg)[1]? with
    | none => .error .indexError
    | some tok =>
      if tok = str "success" then .ok (none, true)
      else if pyStartsWith (str "Program " ++ p.program_id ++ str " invoke") log_start then
        .ok (some p.program_id, false)
      else if pyContains (str "invoke") log_start then
        .ok (some (str "cpi"), false)
      else .ok (none, false)

/-- `EventParser.handle_program_log`: on a `Program log:`-prefixed line,
base64-decode `log[LOG_START_INDEX:]` (a decode failure downgrades to no
event) and hand the bytes to the decode capability; any other line falls
through to `handle_system_log`. -/
def handle_program_log {Event : Type} (p : EventParser Event) (log : Str) :
    Except ParseErr (Option Event × Option Str × Bool) :=
  if pyStartsWith (str "Program log:") log then
    match p.b64decode (log.drop LOG_START_INDEX) with
    | none => .ok (none, none, false)
    | some decoded => .ok (p.eventsParse decoded, none, false)
  else
    match handle_system_log p log with
    | .error e => .error e
    | .ok (newProg, didPop) => .ok (none, newProg, didPop)

/-- `EventParser.handle_log`: dispatch on
`execution.stack and execution.program() == str(self.program_id)`
(the stack's last entry equals the target id). -/
def handle_log {Event : Type} (p : EventParser Event) (stack : List Str) (log : Str) :
    Except ParseErr (Option Event × Option Str × Bool) :=
  if stack.getLast? = some p.program_id then handle_program_log p log
  else
    match handle_system_log p log with
    | .error e => .error e
    | .ok (newProg, didPop) => .ok (none, newProg, didPop)

/-- The `while` loop of `EventParser.parse_logs`.  Per line: run
`handle_log`, deliver the event to the callback (the first component
collects the callback invocations in order), push `new_program` if any,
then pop if `did_pop` (`list.pop()` on an empty stack raises the
`IndexError` modelled by `emptyStack`).  The second component is the
final `execution.stack`; the third is the raised exception, if any. -/
def parse_logs_loop {Event : Type} (p : EventParser Event) (stack : List Str) :
    List Str → List Event × List Str × Option ParseErr
  | [] => ([], stack, none)
  | log :: rest =>
    match handle_log p stack log with
    | .error e => ([], stack, some e)
    | .ok (ev, newProg, didPop) =>
      let stack1 := match newProg with
        | some np => stack ++ [np]
        | none => stack
      if didPop then
        match stack1 with
        | [] => (ev.toList, [], some .emptyStack)
        | _ :: _ =>
          let r := parse_logs_loop p stack1.dropLast rest
          (ev.toList ++ r.1, r.2.1, r.2.2)
      else
        let r := parse_logs_loop p stack1 rest
        (ev.toList ++ r.1, r.2.1, r.2.2)

/-- The forward-only cursor `LogScanner`. -/
structure LogScanner where
  logs : List Str

/-- `LogScanner.to_next`: yield the next line and the advanced scanner,
or `none` when exhausted. -/
def LogScanner.to_next (s : LogScanner) : Option Str × LogScanner :=
  match s.logs with
  | [] => (none, s)
  | log :: rest => (some log, ⟨rest⟩)

/-- `EventParser.parse_logs`.  On an empty list the scanner yields
`None` and `ExecutionContext(None)` calls `.split` on `None`, raising
the `AttributeError` modelled by `attributeError`.  Otherwise the stack
is seeded from the first line and the loop runs over the rest.  The
result is the ordered list of callback invocations together with the
raised exception, if any. -/
def parse_logs {Event : Type} (p : EventParser Event) (logs : List Str) :
    List Event × Option ParseErr :=
  match (LogScanner.mk logs).to_next with
  | (none, _) => ([], some .attributeError)
  | (some first, scanner1) =>
    match ExecutionContext.init first with
    | .error e => ([], some e)
    | .ok stack =>
      let r := parse_logs_loop p stack scanner1.logs
      (r.1, r.2.2)

/-!
Instrumented re-runs of the loop.  `parse_trace_loop` records the order
of observable operations the loop performs — reading a line from the
scanner and handing an event to the callback — exactly as the loop body
sequences them (the callback fires before the scanner is advanced to
the next line).  `parse_counts_loop` counts the pushes and pops the loop
performs.  Both branch exactly as `parse_logs_loop` does; agreement
lemmas below tie them to it.
-/

/-- An observable operation of the loop: reading a line, or handing an
event to the caller-supplied callback. -/
inductive LoopAction (Event : Type) where
  | read : Str → LoopAction Event
  | deliver : Event → LoopAction Event
deriving DecidableEq

/-- The loop of `parse_logs`, instrumented to record reads and
deliveries in operation order. -/
def parse_trace_loop {Event : Type} (p : EventParser Event) (stack : List Str) :
    List Str → List (LoopAction Event) × Option ParseErr
  | [] => ([], none)
  | log :: rest =>
    match handle_log p stack log with
    | .error e => ([.read log], some e)
    | .ok (ev, newProg, didPop) =>
      let here := .read log :: (ev.map .deliver).toList
      let stack1 := match newProg with
        | some np => stack ++ [np]
        | none => stack
      if didPop then
        match stack1 with
        | [] => (here, some .emptyStack)
        | _ :: _ =>
          let r := parse_trace_loop p stack1.dropLast rest
          (here ++ r.1, r.2)
      else
        let r := parse_trace_loop p stack1 rest
        (here ++ r.1, r.2)

/-- `parse_logs`, instrumented to record reads and deliveries in
operation order (the first line is read before the stack is seeded). -/
def parse_trace {Event : Type} (p : EventParser Event) (logs : List Str) :
    List (LoopAction Event) × Option ParseErr :=
  match logs with
  | [] => ([], some .attributeError)
  | first :: rest =>
    match ExecutionContext.init first with
    | .error e => ([.read first], some e)
    | .ok stack =>
      let r := parse_trace_loop p stack rest
      (.read first :: r.1, r.2)

/-- The events delivered in a trace, in order. -/
def deliversOf {Event : Type} : List (LoopAction Event) → List Event
  | [] => []
  | .deliver e :: rest => e :: deliversOf rest
  | .read _ :: rest => deliversOf rest

/-- The lines read in a trace, in order. -/
def readsOf {Event : Type} : List (LoopAction Event) → List Str
  | [] => []
  | .read l :: rest => l :: readsOf rest
  | .deliver _ :: rest => readsOf rest

/-- Holds when every delivery in a trace immediately follows a read and
no read is followed by more than one delivery: events are handed over
one at a time, each before the next line is read. -/
def wellInterleaved {Event : Type} : List (LoopAction Event) → Bool
  | [] => true
  | .deliver _ :: _ => false
  | .read _ :: .deliver _ :: rest => wellInterleaved rest
  | .read _ :: rest => wellInterleaved rest

/-- The loop of `parse_logs`, instrumented to count the pushes (first
component) and pops (second component) it performs. -/
def parse_counts_loop {Event : Type} (p : EventParser Event) (stack : List Str) :
    List Str → Nat × Nat × Option ParseErr
  | [] => (0, 0, none)
  | log :: rest =>
    match handle_log p stack log with
    | .error e => (0, 0, some e)
    | .ok (_, newProg, didPop) =>
      let pushedHere : Nat := match newProg with
        | some _ => 1
        | none => 0
      let stack1 := match newProg with
        | some np => stack ++ [np]
        | none => stack
      if didPop then
        match stack1 with
        | [] => (pushedHere, 0, some .emptyStack)
        | _ :: _ =>
          let r := parse_counts_loop p stack1.dropLast rest
          (pushedHere + r.1, 1 + r.2.1, r.2.2)
      else
        let r := parse_counts_loop p stack1 rest
        (pushedHere + r.1, r.2.1, r.2.2)

/-!
Concrete instances used by witnesses and counterexamples.  The target
program is named `A`; `sampleDecode` accepts exactly the base64 text
`QUJD` (which decodes to the bytes `[65, 66, 67]`) and `sampleParse`
turns those bytes into the event `42`.  `pAeager` is a parser whose
capabilities accept every payload, used to show that isolation results
do not rest on decode failures.
-/

/-- A base64 decoder accepting exactly the payload `QUJD`. -/
def sampleDecode : Str → Option (List Nat) :=
  fun s => if s = str "QUJD" then some [65, 66, 67] else none

/-- A decode capability recognizing exactly the bytes of `QUJD`. -/
def sampleParse : List Nat → Option Nat :=
  fun bs => if bs = [65, 66, 67] then some 42 else none

/-- Parser targeting program `A` with the sample capabilities. -/
def pA : EventParser Nat := ⟨str "A", sampleDecode, sampleParse⟩

/-- Parser targeting program `A` whose capabilities accept everything. -/
def pAeager : EventParser Nat := ⟨str "A", fun _ => some [0], fun _ => some 7⟩

/-- The failure mode of the rule-2 indexing in `handle_system_log`: the
log-start segment has no `Program ` marker, or has one but no second
space-delimited token after it. -/
def ruleTwoIndexFails (log : Str) : Prop :=
  (pySplit (str "Program ") ((pySplit (str ":") log).headD []))[1]? = none
  ∨ ∃ afterProg,
      (pySplit (str "Program ") ((pySplit (str ":") log).headD []))[1]? = some afterProg
      ∧ (pySplit (str " ") afterProg)[1]? = none

/-!
Shared lemmas.  `line_step` summarizes one iteration of the loop body —
the events delivered for the line, the pushes and pops performed, the
updated stack, or the raised exception — and each instrumented loop is
characterized in terms of it, so that the induction lemmas below share
one case analysis.
-/

/-- One iteration of the loop body, summarized.  On success: the events
delivered for the line, the number of pushes and of pops performed
(each `0` or `1`), and the updated stack.  On failure: the events
delivered for the line before the raise, and the exception. -/
def line_step {Event : Type} (p : EventParser Event) (stack : List Str) (log : Str) :
    Except (List Event × ParseErr) (List Event × Nat × Nat × List Str) :=
  match handle_log p stack log with
  | .error e => .error ([], e)
  | .ok (ev, newProg, didPop) =>
    let stack1 := match newProg with
      | some np => stack ++ [np]
      | none => stack
    let pushedHere : Nat := match newProg with
      | some _ => 1
      | none => 0
    if didPop then
      match stack1 with
      | [] => .error (ev.toList, .emptyStack)
      | _ :: _ => .ok (ev.toList, pushedHere, 1, stack1.dropLast)
    else .ok (ev.toList, pushedHere, 0, stack1)

theorem parse_logs_loop_cons {Event : Type} (p : EventParser Event)
    (stack : List Str) (log : Str) (rest : List Str) :
    parse_logs_loop p stack (log :: rest) =
      match line_step p stack log with
      | .error (evs, e) => (evs, stack, some e)
      | .ok (evs, _, _, stack1) =>
        (evs ++ (parse_logs_loop p stack1 rest).1,
         (parse_logs_loop p stack1 rest).2.1,
         (parse_logs_loop p stack1 rest).2.2) := by
  simp only [parse_logs_loop, line_step]
  cases handle_log p stack log with
  | error e => rfl
  | ok trip =>
    obtain ⟨ev, newProg, didPop⟩ := trip
    cases newProg <;> cases didPop <;> cases stack <;> rfl

theorem parse_trace_loop_cons {Event : Type} (p : EventParser Event)
    (stack : List Str) (log : Str) (rest : List Str) :
    parse_trace_loop p stack (log :: rest) =
      match line_step p stack log with
      | .error (evs, e) => (.read log :: evs.map .deliver, some e)
      | .ok (evs, _, _, stack1) =>
        ((.read log :: evs.map .deliver) ++ (parse_trace_loop p stack1 rest).1,
         (parse_trace_loop p stack1 rest).2) := by
  simp only [parse_trace_loop, line_step]
  cases handle_log p stack log with
  | error e => rfl
  | ok trip =>
    obtain ⟨ev, newProg, didPop⟩ := trip
    cases ev <;> cases newProg <;> cases didPop <;> cases stack <;> rfl

theorem parse_counts_loop_cons {Event : Type} (p : EventParser Event)
    (stack : List Str) (log : Str) (rest : List Str) :
    parse_counts_loop p stack (log :: rest) =
      match line_step p stack log with
      | .error (_, e) => (0, 0, some e)
      | .ok (_, pushedHere, poppedHere, stack1) =>
        (pushedHere + (parse_counts_loop p stack1 rest).1,
         poppedHere + (parse_counts_loop p stack1 rest).2.1,
         (parse_counts_loop p stack1 rest).2.2) := by
  simp only [parse_counts_loop, line_step]
  cases handle_log p stack log with
  | error e => rfl
  | ok trip =>
    obtain ⟨ev, newProg, didPop⟩ := trip
    cases newProg <;> cases didPop <;> cases stack <;> simp [Nat.zero_add]

/-- Every exception raised by `handle_system_log` is the `IndexError`
from the rule-2 indexing. -/
theorem handle_system_log_error {Event : Type} (p : EventParser Event)
    (log : Str) (e : ParseErr) (h : handle_system_log p log = .error e) :
    e = .indexError := by
  unfold handle_system_log at h
  dsimp only at h
  repeat' split at h
  all_goals first
    | exact (Except.error.inj h).symm
    | exact Except.noConfusion h

/-- Every exception raised by `handle_program_log` comes from its
fall-through to `handle_system_log`. -/
theorem handle_program_log_error {Event : Type} (p : EventParser Event)
    (log : Str) (e : ParseErr) (h : handle_program_log p log = .error e) :
    e = .indexError := by
  unfold handle_program_log at h
  split at h
  · split at h <;> exact Except.noConfusion h
  · revert h
    cases hs : handle_system_log p log with
    | error e1 =>
      intro h
      exact (Except.error.inj h) ▸ handle_system_log_error p log e1 hs
    | ok pr => obtain ⟨a, b⟩ := pr; exact fun h => Except.noConfusion h

/-- Every exception raised by `handle_log` is the rule-2 `IndexError`. -/
theorem handle_log_error {Event : Type} (p : EventParser Event)
    (stack : List Str) (log : Str) (e : ParseErr)
    (h : handle_log p stack log = .error e) : e = .indexError := by
  unfold handle_log at h
  split at h
  · exact handle_program_log_error p log e h
  · revert h
    cases hs : handle_system_log p log with
    | error e1 =>
      intro h
      exact (Except.error.inj h) ▸ handle_system_log_error p log e1 hs
    | ok pr => obtain ⟨a, b⟩ := pr; exact fun h => Except.noConfusion h

/-- A failing loop iteration raises either the rule-2 `IndexError` or
the pop-on-empty `emptyStack` error. -/
theorem line_step_error {Event : Type} (p : EventParser Event)
    (stack : List Str) (log : Str) (evs : List Event) (e : ParseErr)
    (h : line_step p stack log = .error (evs, e)) :
    e = .indexError ∨ e = .emptyStack := by
  unfold line_step at h
  revert h
  cases hh : handle_log p stack log with
  | error e1 =>
    intro h
    simp only [Except.error.injEq, Prod.mk.injEq] at h
    exact Or.inl (h.2 ▸ handle_log_error p stack log e1 hh)
  | ok trip =>
    obtain ⟨ev, newProg, didPop⟩ := trip
    dsimp only
    cases newProg <;> cases didPop <;> cases stack <;> intro h <;>
      simp at h <;> exact Or.inr h.2.symm

/-- An `Option` yields at most one element as a list. -/
theorem option_toList_length {α : Type} (o : Option α) : o.toList.length ≤ 1 := by
  cases o <;> simp

/-- A successful loop iteration delivers at most one event. -/
theorem line_step_evs_length {Event : Type} (p : EventParser Event)
    (stack : List Str) (log : Str) (evs : List Event) (pu po : Nat)
    (stack1 : List Str)
    (h : line_step p stack log = .ok (evs, pu, po, stack1)) :
    evs.length ≤ 1 := by
  unfold line_step at h
  revert h
  cases hh : handle_log p stack log with
  | error e1 => exact fun h => Except.noConfusion h
  | ok trip =>
    obtain ⟨ev, newProg, didPop⟩ := trip
    dsimp only
    cases newProg <;> cases didPop <;> cases stack <;> intro h <;>
      simp at h <;> exact h.1 ▸ option_toList_length ev

/-- A successful loop iteration changes the stack depth by its push
count minus its pop count. -/
theorem line_step_stack_length {Event : Type} (p : EventParser Event)
    (stack : List Str) (log : Str) (evs : List Event) (pu po : Nat)
    (stack1 : List Str)
    (h : line_step p stack log = .ok (evs, pu, po, stack1)) :
    stack1.length + po = stack.length + pu := by
  unfold line_step at h
  revert h
  cases hh : handle_log p stack log with
  | error e1 => exact fun h => Except.noConfusion h
  | ok trip =>
    obtain ⟨ev, newProg, didPop⟩ := trip
    dsimp only
    cases newProg <;> cases didPop <;> cases stack <;> intro h <;>
      simp at h <;>
      (rcases h with ⟨-, rfl, rfl, rfl⟩
       simp [List.length_dropLast, List.dropLast_concat]
       try omega)

/-- The seeded stack always has exactly one entry. -/
theorem ExecutionContext.init_length (log : Str) (stack : List Str)
    (h : ExecutionContext.init log = .ok stack) : stack.length = 1 := by
  unfold ExecutionContext.init at h
  split at h
  · exact Except.noConfusion h
  · rw [← Except.ok.inj h]; rfl

/-- The loop never raises the first-line `ValueError`: its only
exceptions are the rule-2 `IndexError` and the pop-on-empty error. -/
theorem parse_logs_loop_no_malformed {Event : Type} (p : EventParser Event)
    (logs : List Str) :
    ∀ stack, (parse_logs_loop p stack logs).2.2 ≠ some .malformedLog := by
  induction logs with
  | nil => intro stack; simp [parse_logs_loop]
  | cons log rest ih =>
    intro stack
    rw [parse_logs_loop_cons]
    cases hs : line_step p stack log with
    | error pr =>
      obtain ⟨evs, e⟩ := pr
      dsimp only
      intro hcontra
      rcases line_step_error p stack log evs e hs with rfl | rfl <;>
        exact Option.noConfusion hcontra (fun h => ParseErr.noConfusion h)
    | ok q =>
      obtain ⟨evs, pu, po, stack1⟩ := q
      dsimp only
      exact ih stack1

/-- Running the loop on `pre ++ suf` when `pre` completes cleanly:
the events of `pre` are delivered first, then the loop continues on
`suf` from the stack `pre` left behind. -/
theorem parse_logs_loop_append {Event : Type} (p : EventParser Event)
    (pre : List Str) :
    ∀ (stack suf : List Str) (evs : List Event) (s' : List Str),
      parse_logs_loop p stack pre = (evs, s', none) →
      parse_logs_loop p stack (pre ++ suf) =
        (evs ++ (parse_logs_loop p s' suf).1,
         (parse_logs_loop p s' suf).2.1,
         (parse_logs_loop p s' suf).2.2) := by
  induction pre with
  | nil =>
    intro stack suf evs s' h
    simp only [parse_logs_loop, Prod.mk.injEq] at h
    obtain ⟨rfl, rfl, -⟩ := h
    simp only [List.nil_append]
  | cons log rest ih =>
    intro stack suf evs s' h
    rw [parse_logs_loop_cons] at h
    rw [List.cons_append, parse_logs_loop_cons]
    cases hs : line_step p stack log with
    | error pr =>
      obtain ⟨evs1, e⟩ := pr
      rw [hs] at h
      simp at h
    | ok q =>
      obtain ⟨evs1, pu, po, stack1⟩ := q
      rw [hs] at h
      dsimp only at h ⊢
      simp only [Prod.mk.injEq] at h
      obtain ⟨h1, h2, h3⟩ := h
      have hrest : parse_logs_loop p stack1 rest =
          ((parse_logs_loop p stack1 rest).1,
           (parse_logs_loop p stack1 rest).2.1, none) := by
        rw [← h3]
      rw [ih stack1 suf (parse_logs_loop p stack1 rest).1
        (parse_logs_loop p stack1 rest).2.1 hrest]
      simp [← h1, ← h2, List.append_assoc]

/-- When the loop completes without an exception, final stack depth
plus pops performed equals initial depth plus pushes performed. -/
theorem parse_counts_balance {Event : Type} (p : EventParser Event)
    (logs : List Str) :
    ∀ stack, (parse_counts_loop p stack logs).2.2 = none →
      (parse_logs_loop p stack logs).2.1.length + (parse_counts_loop p stack logs).2.1
        = stack.length + (parse_counts_loop p stack logs).1 := by
  induction logs with
  | nil => intro stack h; simp [parse_logs_loop, parse_counts_loop]
  | cons log rest ih =>
    intro stack h
    rw [parse_counts_loop_cons] at h ⊢
    rw [parse_logs_loop_cons]
    cases hs : line_step p stack log with
    | error pr =>
      obtain ⟨evs1, e⟩ := pr
      try rw [hs] at h
      try simp at h
    | ok q =>
      obtain ⟨evs1, pu, po, stack1⟩ := q
      try rw [hs] at h
      try rw [hs]
      dsimp only at h ⊢
      have hb := ih stack1 h
      have hl := line_step_stack_length p stack log evs1 pu po stack1 hs
      omega

/-- The deliveries of a run of consecutive `deliver` actions followed
by a tail are those events followed by the tail's deliveries. -/
theorem deliversOf_map_deliver_append {Event : Type} (evs : List Event)
    (t : List (LoopAction Event)) :
    deliversOf (evs.map .deliver ++ t) = evs ++ deliversOf t := by
  induction evs with
  | nil => rfl
  | cons a s ih => simpa [deliversOf] using ih

/-- A run of `deliver` actions contains no reads. -/
theorem readsOf_map_deliver_append {Event : Type} (evs : List Event)
    (t : List (LoopAction Event)) :
    readsOf (evs.map .deliver ++ t) = readsOf t := by
  induction evs with
  | nil => rfl
  | cons a s ih => simpa [readsOf] using ih

/-- The instrumented trace yields the same deliveries (in the same
order) and the same exception as the loop itself. -/
theorem parse_trace_loop_agree {Event : Type} (p : EventParser Event)
    (logs : List Str) :
    ∀ stack,
      deliversOf (parse_trace_loop p stack logs).1 = (parse_logs_loop p stack logs).1
      ∧ (parse_trace_loop p stack logs).2 = (parse_logs_loop p stack logs).2.2 := by
  induction logs with
  | nil => intro stack; simp [parse_logs_loop, parse_trace_loop, deliversOf]
  | cons log rest ih =>
    intro stack
    rw [parse_trace_loop_cons, parse_logs_loop_cons]
    cases hs : line_step p stack log with
    | error pr =>
      obtain ⟨evs1, e⟩ := pr
      dsimp only
      constructor
      · show deliversOf (.read log :: evs1.map .deliver) = evs1
        rw [show deliversOf (LoopAction.read log :: evs1.map .deliver)
            = deliversOf (evs1.map .deliver ++ ([] : List (LoopAction Event)))
          from by simp [deliversOf]]
        rw [deliversOf_map_deliver_append]
        simp [deliversOf]
      · rfl
    | ok q =>
      obtain ⟨evs1, pu, po, stack1⟩ := q
      dsimp only
      obtain ⟨ih1, ih2⟩ := ih stack1
      constructor
      · show deliversOf (LoopAction.read log :: evs1.map .deliver
            ++ (parse_trace_loop p stack1 rest).1)
          = evs1 ++ (parse_logs_loop p stack1 rest).1
        rw [← ih1]
        rw [show deliversOf (LoopAction.read log :: evs1.map .deliver
              ++ (parse_trace_loop p stack1 rest).1)
            = deliversOf (evs1.map .deliver ++ (parse_trace_loop p stack1 rest).1)
          from rfl]
        rw [deliversOf_map_deliver_append]
      · exact ih2

/-- A failing loop iteration also delivers at most one event first. -/
theorem line_step_error_evs_length {Event : Type} (p : EventParser Event)
    (stack : List Str) (log : Str) (evs : List Event) (e : ParseErr)
    (h : line_step p stack log = .error (evs, e)) :
    evs.length ≤ 1 := by
  unfold line_step at h
  revert h
  cases hh : handle_log p stack log with
  | error e1 =>
    intro h
    simp only [Except.error.injEq, Prod.mk.injEq] at h
    rw [← h.1]
    simp
  | ok trip =>
    obtain ⟨ev, newProg, didPop⟩ := trip
    dsimp only
    cases newProg <;> cases didPop <;> cases stack <;> intro h <;>
      simp at h <;> exact h.1 ▸ option_toList_length ev

/-- Prepending a read to a well-interleaved trace keeps it
well-interleaved. -/
theorem wellInterleaved_read_cons {Event : Type} (l : Str)
    (t : List (LoopAction Event)) (h : wellInterleaved t = true) :
    wellInterleaved (.read l :: t) = true := by
  cases t with
  | nil => rfl
  | cons a t' =>
    cases a with
    | read l2 => simpa [wellInterleaved] using h
    | deliver e => simp [wellInterleaved] at h

/-- Every trace the loop produces is well-interleaved: each event is
handed over immediately after its line is read, before any further
line is read. -/
theorem parse_trace_loop_wellInterleaved {Event : Type} (p : EventParser Event)
    (logs : List Str) :
    ∀ stack, wellInterleaved (parse_trace_loop p stack logs).1 = true := by
  induction logs with
  | nil => intro stack; rfl
  | cons log rest ih =>
    intro stack
    rw [parse_trace_loop_cons]
    cases hs : line_step p stack log with
    | error pr =>
      obtain ⟨evs1, e⟩ := pr
      dsimp only
      have hlen := line_step_error_evs_length p stack log evs1 e hs
      cases evs1 with
      | nil => rfl
      | cons a t =>
        cases t with
        | nil => rfl
        | cons b t2 => simp at hlen
    | ok q =>
      obtain ⟨evs1, pu, po, stack1⟩ := q
      dsimp only
      have hlen := line_step_evs_length p stack log evs1 pu po stack1 hs
      cases evs1 with
      | nil => exact wellInterleaved_read_cons log _ (ih stack1)
      | cons a t =>
        cases t with
        | nil => simpa [wellInterleaved] using ih stack1
        | cons b t2 => simp at hlen

/-- The lines a trace reads form a prefix of the input line list: lines
are consumed in order, none skipped, none repeated, up to the point the
scan stops. -/
theorem parse_trace_loop_reads {Event : Type} (p : EventParser Event)
    (logs : List Str) :
    ∀ stack, readsOf (parse_trace_loop p stack logs).1 <+: logs := by
  induction logs with
  | nil => intro stack; simp [parse_trace_loop, readsOf]
  | cons log rest ih =>
    intro stack
    rw [parse_trace_loop_cons]
    cases hs : line_step p stack log with
    | error pr =>
      obtain ⟨evs1, e⟩ := pr
      dsimp only
      show readsOf (.read log :: evs1.map .deliver) <+: log :: rest
      rw [show readsOf (LoopAction.read log :: evs1.map .deliver)
          = log :: readsOf (evs1.map .deliver ++ ([] : List (LoopAction Event)))
        from by simp [readsOf]]
      rw [readsOf_map_deliver_append]
      exact ⟨rest, by simp [readsOf]⟩
    | ok q =>
      obtain ⟨evs1, pu, po, stack1⟩ := q
      dsimp only
      show readsOf (LoopAction.read log :: evs1.map .deliver
          ++ (parse_trace_loop p stack1 rest).1) <+: log :: rest
      rw [show readsOf (LoopAction.read log :: evs1.map .deliver
            ++ (parse_trace_loop p stack1 rest).1)
          = log :: readsOf (evs1.map .deliver ++ (parse_trace_loop p stack1 rest).1)
        from by simp [readsOf]]
      rw [readsOf_map_deliver_append]
      obtain ⟨t', ht⟩ := ih stack1
      exact ⟨t', by rw [List.cons_append, ht]⟩

/-!
Step-level helpers used by the claim theorems.
-/

/-- When a subroutine other than the target is on top of the stack (or
the stack is empty), `handle_log` does not depend on the parser's
decode capabilities: two parsers with the same target id handle the
line identically. -/
theorem handle_log_other_top_independent {Event : Type}
    (p q : EventParser Event) (hpq : p.program_id = q.program_id)
    (stack : List Str) (log : Str)
    (h : stack.getLast? ≠ some p.program_id) :
    handle_log p stack log = handle_log q stack log := by
  obtain ⟨pid1, b1, e1⟩ := p
  obtain ⟨pid2, b2, e2⟩ := q
  dsimp at hpq h
  subst hpq
  unfold handle_log
  rw [if_neg h, if_neg h]
  rfl

/-- When a subroutine other than the target is on top, a successful
`handle_log` never carries an event. -/
theorem handle_log_other_top_no_event {Event : Type} (p : EventParser Event)
    (stack : List Str) (log : Str)
    (h : stack.getLast? ≠ some p.program_id)
    (r : Option Event × Option Str × Bool)
    (hr : handle_log p stack log = .ok r) : r.1 = none := by
  unfold handle_log at hr
  rw [if_neg h] at hr
  revert hr
  cases handle_system_log p log with
  | error e => exact fun hr => Except.noConfusion hr
  | ok pr =>
    obtain ⟨np, dp⟩ := pr
    intro hr
    rw [← Except.ok.inj hr]

/-- The rule-2 indexing failure makes `handle_system_log` raise the
`IndexError`. -/
theorem handle_system_log_fatal {Event : Type} (p : EventParser Event)
    (log : Str) (hfail : ruleTwoIndexFails log) :
    handle_system_log p log = .error .indexError := by
  unfold handle_system_log
  dsimp only
  rcases hfail with h1 | ⟨afterProg, h1, h2⟩
  · rw [h1]
  · rw [h1]
    dsimp only
    rw [h2]

/-- The rule-2 indexing failure is fatal for `handle_log` whenever the
line is dispatched to the system-log rules: either it lacks the
`Program log:` shape, or a non-target subroutine is on top. -/
theorem handle_log_fatal {Event : Type} (p : EventParser Event)
    (stack : List Str) (log : Str) (hfail : ruleTwoIndexFails log)
    (hdisp : pyStartsWith (str "Program log:") log = false
      ∨ stack.getLast? ≠ some p.program_id) :
    handle_log p stack log = .error .indexError := by
  have hsys := handle_system_log_fatal p log hfail
  unfold handle_log
  by_cases htop : stack.getLast? = some p.program_id
  · rw [if_pos htop]
    rcases hdisp with hnp | hne
    · unfold handle_program_log
      rw [hnp]
      simp [hsys]
    · exact absurd htop hne
  · rw [if_neg htop]
    rw [hsys]

/-- A line that `handle_system_log` classifies as invocation-end, when
dispatched to the system-log rules, makes the loop pop the topmost
frame and deliver nothing, continuing on the shortened stack. -/
theorem parse_logs_loop_pop_step {Event : Type} (p : EventParser Event)
    (stack : List Str) (log : Str) (rest : List Str) (hne : stack ≠ [])
    (hsys : handle_system_log p log = .ok (none, true))
    (hdisp : pyStartsWith (str "Program log:") log = false
      ∨ stack.getLast? ≠ some p.program_id) :
    parse_logs_loop p stack (log :: rest) = parse_logs_loop p stack.dropLast rest := by
  have hl : handle_log p stack log = .ok (none, none, true) := by
    unfold handle_log
    by_cases htop : stack.getLast? = some p.program_id
    · rw [if_pos htop]
      rcases hdisp with hnp | hne2
      · unfold handle_program_log
        rw [hnp]
        simp [hsys]
      · exact absurd htop hne2
    · rw [if_neg htop]
      rw [hsys]
  rw [parse_logs_loop_cons]
  have hstep : line_step p stack log = .ok ([], 0, 1, stack.dropLast) := by
    unfold line_step
    rw [hl]
    cases stack with
    | nil => exact absurd rfl hne
    | cons a as => simp
  rw [hstep]
  rfl

/-- A `Program log:`-shaped line whose payload fails to base64-decode,
seen while the target is on top, is a no-op for the loop: no exception,
no event, stack unchanged, scanning continues. -/
theorem parse_logs_loop_undecodable_step {Event : Type} (p : EventParser Event)
    (stack : List Str) (log : Str) (rest : List Str)
    (htop : stack.getLast? = some p.program_id)
    (hpl : pyStartsWith (str "Program log:") log = true)
    (hdec : p.b64decode (log.drop LOG_START_INDEX) = none) :
    handle_log p stack log = .ok (none, none, false)
    ∧ parse_logs_loop p stack (log :: rest) = parse_logs_loop p stack rest := by
  have hl : handle_log p stack log = .ok (none, none, false) := by
    unfold handle_log
    rw [if_pos htop]
    unfold handle_program_log
    rw [hpl]
    simp [hdec]
  refine ⟨hl, ?_⟩
  rw [parse_logs_loop_cons]
  have hstep : line_step p stack log = .ok ([], 0, 0, stack) := by
    unfold line_step
    rw [hl]
    simp
  rw [hstep]
  rfl

/-!
Claim theorems.
-/

/-- C1 (amended).  Cross-talk isolation holds at every step: while a
subroutine other than the target (or no subroutine) is on top of the
stack, `handle_log` neither consults the decode capabilities (its
result is identical for any two parsers sharing the target id) nor
produces an event.  However, the claim's example run does not complete:
its `Program log:` line is handled by the system-log rules while `cpi`
is on top, and the rule-2 indexing raises the fatal `IndexError` after
zero events. -/
theorem cross_talk_isolation :
    (∀ (Event : Type) (p q : EventParser Event), p.program_id = q.program_id →
      ∀ (stack : List Str) (log : Str), stack.getLast? ≠ some p.program_id →
        handle_log p stack log = handle_log q stack log)
    ∧ (∀ (Event : Type) (p : EventParser Event) (stack : List Str) (log : Str)
        (r : Option Event × Option Str × Bool), stack.getLast? ≠ some p.program_id →
        handle_log p stack log = .ok r → r.1 = none)
    ∧ parse_logs pAeager
        [str "Program A invoke [1]", str "Program B invoke [2]",
         str "Program log: QUJD", str "Program B success", str "Program A success"]
        = ([], some .indexError) := by
  refine ⟨?_, ?_, by decide⟩
  · intro Event p q hpq stack log h
    exact handle_log_other_top_independent p q hpq stack log h
  · intro Event p stack log r h hr
    exact handle_log_other_top_no_event p stack log h r hr

/-- C1, counterexample to the claim as stated: the example run (with a
parser whose capabilities accept every payload, so failure cannot be
blamed on the decoder) does not complete — it raises the rule-2
`IndexError` — although it has delivered zero events. -/
theorem cross_talk_isolation_counterexample :
    parse_logs pAeager
      [str "Program A invoke [1]", str "Program B invoke [2]",
       str "Program log: QUJD", str "Program B success", str "Program A success"]
      = ([], some .indexError)
    ∧ (some ParseErr.indexError ≠ (none : Option ParseErr)) := by
  exact ⟨by decide, by decide⟩

/-- C1, witness: the isolation conjuncts applied at a concrete stack
with `cpi` on top. -/
theorem cross_talk_isolation_witness :
    handle_log pAeager [str "A", str "cpi"] (str "Program log: QUJD")
      = handle_log pA [str "A", str "cpi"] (str "Program log: QUJD")
    ∧ ((none : Option Nat), some (str "cpi"), false).1 = none :=
  ⟨cross_talk_isolation.1 Nat pAeager pA rfl [str "A", str "cpi"]
      (str "Program log: QUJD") (by decide),
   cross_talk_isolation.2.1 Nat pAeager [str "A", str "cpi"]
      (str "Program B invoke [2]") (none, some (str "cpi"), false) (by decide) rfl⟩

/-- C4 (amended).  The first line is rejected with *MalformedLog*
exactly when it lacks the `Program ` marker (the split on `Program `
has no second segment); a first line containing the marker but lacking
` invoke [` is accepted, seeding the stack with everything after the
marker.  On rejection, no event is delivered and no later line is
processed. -/
theorem initial_line_validation_amended :
    ∀ (Event : Type) (p : EventParser Event) (first : Str) (rest : List Str),
      ((pySplit (str "Program ") first)[1]? = none →
        parse_logs p (first :: rest) = ([], some .malformedLog))
      ∧ ((parse_logs p (first :: rest)).2 = some .malformedLog →
        (pySplit (str "Program ") first)[1]? = none) := by
  intro Event p first rest
  constructor
  · intro h
    have hinit : ExecutionContext.init first = .error .malformedLog := by
      unfold ExecutionContext.init
      rw [h]
    show (match ExecutionContext.init first with
      | .error e => (([] : List Event), some e)
      | .ok stack =>
        ((parse_logs_loop p stack rest).1, (parse_logs_loop p stack rest).2.2))
      = ([], some .malformedLog)
    rw [hinit]
  · intro h
    cases hsplit : (pySplit (str "Program ") first)[1]? with
    | none => rfl
    | some afterProg =>
      exfalso
      have hinit : ExecutionContext.init first
          = .ok [(pySplit (str " invoke [") afterProg).headD []] := by
        unfold ExecutionContext.init
        rw [hsplit]
      have hproj : (parse_logs p (first :: rest)).2
          = (parse_logs_loop p [(pySplit (str " invoke [") afterProg).headD []]
              rest).2.2 := by
        show (match ExecutionContext.init first with
          | .error e => (([] : List Event), some e)
          | .ok stack =>
            ((parse_logs_loop p stack rest).1, (parse_logs_loop p stack rest).2.2)).2
          = _
        rw [hinit]
      rw [hproj] at h
      exact parse_logs_loop_no_malformed p rest _ h

/-- C4, counterexample to the claim as stated: the first line
`Program foo` does not match the `Program <id> invoke [` pattern (it
has no ` invoke [` marker), yet the parse does not fail with
*MalformedLog* — it completes without error and without events. -/
theorem initial_line_validation_counterexample :
    pyContains (str " invoke [") (str "Program foo") = false
    ∧ parse_logs pA [str "Program foo"] = ([], none) := by
  exact ⟨by decide, by decide⟩

/-- C4, witness: the spec's own example first line `hello world`
(which lacks the `Program ` marker) is rejected with *MalformedLog*
before any line is processed, the sink never invoked. -/
theorem initial_line_validation_witness :
    parse_logs pA [str "hello world", str "Program A invoke [1]"]
      = ([], some .malformedLog) :=
  (initial_line_validation_amended Nat pA (str "hello world")
    [str "Program A invoke [1]"]).1 (by decide)

/-- C9 (amended).  On an empty line list, parse fails before invoking
the sink, but with the `AttributeError` that arises from handing the
scanner's `None` sentinel to `ExecutionContext.__init__` — not with the
*MalformedLog* `ValueError`. -/
theorem empty_input_rejection_amended :
    ∀ (Event : Type) (p : EventParser Event),
      parse_logs p ([] : List Str) = ([], some .attributeError)
      ∧ ParseErr.attributeError ≠ ParseErr.malformedLog := by
  intro Event p
  exact ⟨rfl, by decide⟩

/-- C9, counterexample to the claim as stated: the error raised on
empty input is the `AttributeError`, not *MalformedLog*. -/
theorem empty_input_rejection_counterexample :
    parse_logs pA ([] : List Str) = ([], some .attributeError)
    ∧ some ParseErr.attributeError ≠ some ParseErr.malformedLog := by
  exact ⟨rfl, by decide⟩

/-- C5.  A `Program log:`-shaped line whose payload fails to
base64-decode, processed while the target is on top of the stack, does
not raise, emits no event, leaves the stack unchanged, and the scan of
the remaining lines proceeds exactly as if the line were absent. -/
theorem undecodable_payload_tolerance :
    ∀ (Event : Type) (p : EventParser Event) (stack : List Str) (log : Str)
      (rest : List Str),
      stack.getLast? = some p.program_id →
      pyStartsWith (str "Program log:") log = true →
      p.b64decode (log.drop LOG_START_INDEX) = none →
      handle_log p stack log = .ok (none, none, false)
      ∧ parse_logs_loop p stack (log :: rest) = parse_logs_loop p stack rest := by
  intro Event p stack log rest h1 h2 h3
  exact parse_logs_loop_undecodable_step p stack log rest h1 h2 h3

/-- C5, witness: `Program log: not-base64!!` is skipped without an
exception and the valid event on a later line is still delivered. -/
theorem undecodable_payload_tolerance_witness :
    (handle_log pA [str "A"] (str "Program log: not-base64!!")
      = .ok (none, none, false)
    ∧ parse_logs_loop pA [str "A"]
        [str "Program log: not-base64!!", str "Program log: QUJD",
         str "Program A success"]
      = parse_logs_loop pA [str "A"]
        [str "Program log: QUJD", str "Program A success"])
    ∧ parse_logs_loop pA [str "A"]
        [str "Program log: QUJD", str "Program A success"] = ([42], [], none) :=
  ⟨undecodable_payload_tolerance Nat pA [str "A"] (str "Program log: not-base64!!")
      [str "Program log: QUJD", str "Program A success"]
      (by decide) (by decide) (by decide),
   by decide⟩

/-- C6.  Whenever the log-start segment (the text before the first
colon), split on `Program ` and taken after it, has second
space-delimited token equal to `success`, `handle_system_log`
classifies the line as invocation-end (no push, pop requested), and a
loop step on such a line — dispatched to the system-log rules — pops
the topmost stack entry and delivers nothing. -/
theorem invocation_end_classification :
    ∀ (Event : Type) (p : EventParser Event) (log afterProg : Str)
      (stack : List Str) (rest : List Str),
      (pySplit (str "Program ") ((pySplit (str ":") log).headD []))[1]?
        = some afterProg →
      (pySplit (str " ") afterProg)[1]? = some (str "success") →
      handle_system_log p log = .ok (none, true)
      ∧ (stack ≠ [] →
         (pyStartsWith (str "Program log:") log = false
           ∨ stack.getLast? ≠ some p.program_id) →
         parse_logs_loop p stack (log :: rest)
           = parse_logs_loop p stack.dropLast rest) := by
  intro Event p log afterProg stack rest h1 h2
  have hsys : handle_system_log p log = .ok (none, true) := by
    unfold handle_system_log
    dsimp only
    rw [h1]
    dsimp only
    rw [h2]
    simp
  exact ⟨hsys, fun hne hdisp => parse_logs_loop_pop_step p stack log rest hne hsys hdisp⟩

/-- C6, witness: `Program B success` while `cpi` is on top pops it. -/
theorem invocation_end_classification_witness :
    handle_system_log pA (str "Program B success") = .ok (none, true)
    ∧ parse_logs_loop pA [str "A", str "cpi"] [str "Program B success"]
      = parse_logs_loop pA [str "A"] [] := by
  have h := invocation_end_classification Nat pA (str "Program B success")
    (str "B success") [str "A", str "cpi"] [] (by decide) (by decide)
  exact ⟨h.1, h.2 (by decide) (Or.inr (by decide))⟩

/-- C7.  A line whose log-start segment lacks the `Program ` marker, or
has one but no second space-delimited token after it, is fatal when it
reaches the rules 2a-2d: `handle_system_log` raises the `IndexError`,
and a scan that completed cleanly on the lines before it stops there —
the exception propagates out of the loop, the remaining lines are never
processed, and the events already delivered are exactly those of the
clean part. -/
theorem midstream_fatality :
    (∀ (Event : Type) (p : EventParser Event) (log : Str),
      ruleTwoIndexFails log →
      handle_system_log p log = .error .indexError)
    ∧ (∀ (Event : Type) (p : EventParser Event) (stack pre : List Str) (bad : Str)
        (rest : List Str) (evs : List Event) (s' : List Str),
        parse_logs_loop p stack pre = (evs, s', none) →
        ruleTwoIndexFails bad →
        (pyStartsWith (str "Program log:") bad = false
          ∨ s'.getLast? ≠ some p.program_id) →
        parse_logs_loop p stack (pre ++ bad :: rest)
          = (evs, s', some .indexError)) := by
  constructor
  · intro Event p log hfail
    exact handle_system_log_fatal p log hfail
  · intro Event p stack pre bad rest evs s' hpre hfail hdisp
    have hbad : handle_log p s' bad = .error .indexError :=
      handle_log_fatal p s' bad hfail hdisp
    rw [parse_logs_loop_append p pre stack (bad :: rest) evs s' hpre]
    rw [parse_logs_loop_cons]
    have hstep : line_step p s' bad = .error ([], .indexError) := by
      unfold line_step
      rw [hbad]
    rw [hstep]
    simp

/-- C7, witness: after one delivered event, the line `hello` (whose
log-start has no `Program ` marker) aborts the scan; the later valid
line is never processed and the earlier event remains delivered. -/
theorem midstream_fatality_witness :
    handle_system_log pA (str "hello") = .error .indexError
    ∧ parse_logs_loop pA [str "A"]
        ([str "Program log: QUJD"] ++ str "hello" :: [str "Program A success"])
      = ([42], [str "A"], some .indexError) :=
  ⟨midstream_fatality.1 Nat pA (str "hello") (Or.inl (by decide)),
   midstream_fatality.2 Nat pA [str "A"] [str "Program log: QUJD"] (str "hello")
     [str "Program A success"] [42] [str "A"] (by decide) (Or.inl (by decide))
     (Or.inl (by decide))⟩

/-- C8 (amended).  The seeded stack has depth 1, and on a clean scan
that ends with the stack empty — which is what happens when the
outermost invocation properly closes, since its `success` line pops the
seeded frame — the pops exceed the pushes by exactly one.  The stack
never goes below depth 0; an invocation-end at depth 0 is the fatal
pop-on-empty error, excluded here by the clean-scan hypothesis. -/
theorem stack_depth_balance_amended :
    ∀ (Event : Type) (p : EventParser Event) (first : Str) (rest : List Str)
      (stack0 : List Str),
      ExecutionContext.init first = .ok stack0 →
      (parse_counts_loop p stack0 rest).2.2 = none →
      (parse_logs_loop p stack0 rest).2.1 = [] →
      stack0.length = 1
      ∧ (parse_counts_loop p stack0 rest).2.1
        = (parse_counts_loop p stack0 rest).1 + 1 := by
  intro Event p first rest stack0 hinit hok hfin
  have hlen := ExecutionContext.init_length first stack0 hinit
  have hb := parse_counts_balance p rest stack0 hok
  rw [hfin] at hb
  simp at hb
  exact ⟨hlen, by omega⟩

/-- C8, counterexample to the claim as stated: the well-formed input
`["Program A invoke [1]", "Program A success"]`, whose outermost
invocation properly closes, ends the scan with the stack at depth 0
(not 1), having performed 1 pop and 0 pushes. -/
theorem stack_depth_balance_counterexample :
    ExecutionContext.init (str "Program A invoke [1]") = .ok [str "A"]
    ∧ parse_logs_loop pA [str "A"] [str "Program A success"] = ([], [], none)
    ∧ parse_counts_loop pA [str "A"] [str "Program A success"] = (0, 1, none)
    ∧ (parse_logs_loop pA [str "A"] [str "Program A success"]).2.1.length ≠ 1
    ∧ (parse_counts_loop pA [str "A"] [str "Program A success"]).1
      ≠ (parse_counts_loop pA [str "A"] [str "Program A success"]).2.1 := by
  exact ⟨rfl, by decide, by decide, by decide, by decide⟩

/-- C8, witness: the amended balance applied to the two-line run. -/
theorem stack_depth_balance_witness :
    ([str "A"] : List Str).length = 1
    ∧ (parse_counts_loop pA [str "A"] [str "Program A success"]).2.1
      = (parse_counts_loop pA [str "A"] [str "Program A success"]).1 + 1 :=
  stack_depth_balance_amended Nat pA (str "Program A invoke [1]")
    [str "Program A success"] [str "A"] rfl (by decide) (by decide)

/-- C10.  Popping is identifier-blind: a line classified as
invocation-end pops whatever frame is on top — the loop's next state is
the same for every topmost identifier `x` (no comparison with the
identifier named in the line); every non-target invocation is pushed as
the fixed identifier `cpi`; and concretely, `Program Z success` pops
the frame pushed for `Program B invoke [2]` although `Z` and `B` do not
correspond. -/
theorem identifier_blind_popping :
    (∀ (Event : Type) (p : EventParser Event) (s : List Str) (x : Str)
      (log : Str) (rest : List Str),
      x ≠ p.program_id →
      handle_system_log p log = .ok (none, true) →
      parse_logs_loop p (s ++ [x]) (log :: rest) = parse_logs_loop p s rest)
    ∧ (∀ (Event : Type) (p : EventParser Event) (log afterProg tok : Str),
      (pySplit (str "Program ") ((pySplit (str ":") log).headD []))[1]?
        = some afterProg →
      (pySplit (str " ") afterProg)[1]? = some tok →
      tok ≠ str "success" →
      pyStartsWith (str "Program " ++ p.program_id ++ str " invoke")
        ((pySplit (str ":") log).headD []) = false →
      pyContains (str "invoke") ((pySplit (str ":") log).headD []) = true →
      handle_system_log p log = .ok (some (str "cpi"), false))
    ∧ parse_logs_loop pA [str "A"]
        [str "Program B invoke [2]", str "Program Z success"]
      = ([], [str "A"], none) := by
  refine ⟨?_, ?_, by decide⟩
  · intro Event p s x log rest hx hsys
    have hlast : (s ++ [x]).getLast? = some x := by simp
    have h := parse_logs_loop_pop_step p (s ++ [x]) log rest (by simp) hsys
      (Or.inr (by rw [hlast]; exact fun hc => hx (Option.some.inj hc)))
    rwa [List.dropLast_concat] at h
  · intro Event p log afterProg tok h1 h2 h3 h4 h5
    unfold handle_system_log
    dsimp only
    rw [h1]
    dsimp only
    rw [h2]
    dsimp only
    rw [if_neg h3]
    rw [h4, h5]
    simp

/-- C10, witness: the pop conjunct at a mismatched pair (`Program Z
success` popping the `cpi` frame) and the cpi-push conjunct at
`Program B invoke [2]`. -/
theorem identifier_blind_popping_witness :
    parse_logs_loop pA ([str "A"] ++ [str "cpi"]) [str "Program Z success"]
      = parse_logs_loop pA [str "A"] []
    ∧ handle_system_log pA (str "Program B invoke [2]")
      = .ok (some (str "cpi"), false) :=
  ⟨identifier_blind_popping.1 Nat pA [str "A"] (str "cpi")
      (str "Program Z success") [] (by decide) rfl,
   identifier_blind_popping.2.1 Nat pA (str "Program B invoke [2]")
      (str "B invoke [2]") (str "invoke") (by decide) (by decide) (by decide)
      (by decide) (by decide)⟩

/-- C3.  Synchronous in-order delivery: for every parser and input,
the instrumented operation trace (which transcribes the loop body's
order — the callback fires, if at all, right after its line is read and
before the scanner advances) delivers exactly the events `parse_logs`
reports to the callback, in the same order; it raises the same
exception; every delivery in the trace immediately follows a read with
at most one delivery per read (no batching, no reordering, each event
handed over before the next line is read); and the lines read form a
prefix of the input, in input order. -/
theorem synchronous_in_order_delivery :
    ∀ (Event : Type) (p : EventParser Event) (logs : List Str),
      deliversOf (parse_trace p logs).1 = (parse_logs p logs).1
      ∧ (parse_trace p logs).2 = (parse_logs p logs).2
      ∧ wellInterleaved (parse_trace p logs).1 = true
      ∧ readsOf (parse_trace p logs).1 <+: logs := by
  intro Event p logs
  cases logs with
  | nil => exact ⟨rfl, rfl, rfl, ⟨[], rfl⟩⟩
  | cons first rest =>
    cases hinit : ExecutionContext.init first with
    | error e =>
      have htr : parse_trace p (first :: rest) = ([.read first], some e) := by
        unfold parse_trace
        dsimp only
        rw [hinit]
      have hpl2 : parse_logs p (first :: rest) = ([], some e) := by
        unfold parse_logs
        dsimp only [LogScanner.to_next]
        rw [hinit]
      rw [htr, hpl2]
      exact ⟨rfl, rfl, rfl, ⟨rest, rfl⟩⟩
    | ok stack =>
      have hagree := parse_trace_loop_agree p rest stack
      have hwi := parse_trace_loop_wellInterleaved p rest stack
      have hreads := parse_trace_loop_reads p rest stack
      have htr : parse_trace p (first :: rest)
          = (.read first :: (parse_trace_loop p stack rest).1,
             (parse_trace_loop p stack rest).2) := by
        unfold parse_trace
        dsimp only
        rw [hinit]
      have hpl2 : parse_logs p (first :: rest)
          = ((parse_logs_loop p stack rest).1, (parse_logs_loop p stack rest).2.2) := by
        unfold parse_logs
        dsimp only [LogScanner.to_next]
        rw [hinit]
      rw [htr, hpl2]
      refine ⟨?_, hagree.2, ?_, ?_⟩
      · rw [show deliversOf (LoopAction.read first :: (parse_trace_loop p stack rest).1)
            = deliversOf (parse_trace_loop p stack rest).1 from by simp [deliversOf]]
        exact hagree.1
      · exact wellInterleaved_read_cons first _ hwi
      · obtain ⟨t', ht⟩ := hreads
        refine ⟨t', ?_⟩
        rw [show readsOf (LoopAction.read first :: (parse_trace_loop p stack rest).1)
            = first :: readsOf (parse_trace_loop p stack rest).1 from by simp [readsOf]]
        rw [List.cons_append, ht]

/-- C2.  Nested invocation round-trip: with target `A`, any decode
capabilities that accept the payload `QUJD` and produce an event `e`
from its bytes make the five-line run deliver exactly `[e]` and finish
cleanly — the pop on `Program C success` restores `A` on top before
the authored-message line is classified, so it is decoded and
delivered exactly once. -/
theorem nested_invocation_round_trip :
    ∀ (Event : Type) (b64 : Str → Option (List Nat))
      (evp : List Nat → Option Event) (bs : List Nat) (e : Event),
      b64 (str "QUJD") = some bs →
      evp bs = some e →
      parse_logs ⟨str "A", b64, evp⟩
        [str "Program A invoke [1]", str "Program C invoke [2]",
         str "Program C success", str "Program log: QUJD",
         str "Program A success"] = ([e], none) := by
  intro Event b64 evp bs e h1 h2
  have s4 : handle_log (⟨str "A", b64, evp⟩ : EventParser Event) [str "A"]
      (str "Program log: QUJD") = .ok (some e, none, false) := by
    show (match b64 (str "QUJD") with
      | none => (Except.ok (none, none, false) :
          Except ParseErr (Option Event × Option Str × Bool))
      | some decoded => Except.ok (evp decoded, none, false))
      = Except.ok (some e, none, false)
    rw [h1]
    dsimp only
    rw [h2]
  have t2 : line_step (⟨str "A", b64, evp⟩ : EventParser Event) [str "A"]
      (str "Program C invoke [2]")
      = .ok ([], 1, 0, [str "A", str "cpi"]) := rfl
  have t3 : line_step (⟨str "A", b64, evp⟩ : EventParser Event)
      [str "A", str "cpi"] (str "Program C success")
      = .ok ([], 0, 1, [str "A"]) := rfl
  have t4 : line_step (⟨str "A", b64, evp⟩ : EventParser Event) [str "A"]
      (str "Program log: QUJD") = .ok ([e], 0, 0, [str "A"]) := by
    unfold line_step
    rw [s4]
    simp
  have t5 : line_step (⟨str "A", b64, evp⟩ : EventParser Event) [str "A"]
      (str "Program A success") = .ok ([], 0, 1, []) := rfl
  show ((parse_logs_loop (⟨str "A", b64, evp⟩ : EventParser Event) [str "A"]
      [str "Program C invoke [2]", str "Program C success",
       str "Program log: QUJD", str "Program A success"]).1,
    (parse_logs_loop (⟨str "A", b64, evp⟩ : EventParser Event) [str "A"]
      [str "Program C invoke [2]", str "Program C success",
       str "Program log: QUJD", str "Program A success"]).2.2) = ([e], none)
  rw [parse_logs_loop_cons, t2]
  dsimp only
  rw [parse_logs_loop_cons, t3]
  dsimp only
  rw [parse_logs_loop_cons, t4]
  dsimp only
  rw [parse_logs_loop_cons, t5]
  dsimp only
  rfl

/-- C2, witness: the round-trip at the sample capabilities, which
decode `QUJD` to the bytes `[65, 66, 67]` and those bytes to the event
`42`. -/
theorem nested_invocation_round_trip_witness :
    parse_logs pA
      [str "Program A invoke [1]", str "Program C invoke [2]",
       str "Program C success", str "Program log: QUJD",
       str "Program A success"] = ([42], none) :=
  nested_invocation_round_trip Nat sampleDecode sampleParse [65, 66, 67] 42
    (by decide) (by decide)
